import Mathlib

attribute [local semireducible] Rat.mul Rat.inv Rat.add Rat.sub

set_option maxRecDepth 8000

/-!
Verification of the A2Z Flashing transaction-file transformer (src/app.py).

The development shallowly embeds the core pipeline `process_file` and its
helper functions (`create_document_number`, `format_date`, `format_amount`,
`determine_transaction_type`) together with the Python string and number
primitives they rely on.

Modelling conventions:
* A dataframe cell is `Cell`: either the missing-value marker (pandas `NaN`)
  or a value rendered by Python `str` as a `String`.  `pyStr` is Python
  `str(val)` (for the missing marker `str(float("nan")) = "nan"`), and
  `pyNotna` is `pd.notna`.
* Python `float(string)` is embedded by `pyFloatOfChars`: the documented
  grammar (optional sign, digits with single underscores between digits,
  optional fraction and exponent, and the case-insensitive words
  `inf`/`infinity`/`nan`), with the numeric value taken as an exact rational
  and with overflow to an infinity at the binary64 overflow threshold
  `2^1024 - 2^970`.  Rounding of the mantissa to 53 bits is abstracted away:
  the value of a parsed literal is its exact decimal value.  This is faithful
  on every literal of at most 15 significant digits and on every string the
  program itself produces, except for decimal literals within one part in
  10^305 of the overflow threshold.
* Python `f"{x:.2f}"` is `formatDot2`: round-half-even to two decimals,
  with `inf`, `-inf`, `nan` rendered as Python renders them, and the sign
  of a negative zero preserved (`f"{-0.0:.2f} = "-0.00"`).
* String manipulation is done on `List Char`; Python `str.strip` is
  `trimChars` (ASCII whitespace) and `str.lower` maps `Char.toLower`.
-/

namespace A2Z

/-- A loosely-typed dataframe cell: missing (pandas `NaN`) or a value given
by its Python `str` rendering. -/
inductive Cell where
  | na : Cell
  | txt : String → Cell
deriving DecidableEq, Repr

/-- Python `str(val)` for a cell; `str` of the missing marker is `"nan"`. -/
def pyStr : Cell → String
  | Cell.na => "nan"
  | Cell.txt s => s

/-- The pandas missingness test `pd.notna`. -/
def pyNotna : Cell → Bool
  | Cell.na => false
  | Cell.txt _ => true

/-- Numeric value of a decimal digit character. -/
def dVal (c : Char) : ℕ := c.toNat - 48

/-- The decimal digit character for a value below ten. -/
def digitChar (n : ℕ) : Char := Char.ofNat (48 + n)

/-- Fuel-bounded digit accumulator behind `natToDigits` (structural
recursion on the fuel, so that renderings evaluate by kernel reduction). -/
def natToDigitsAux : ℕ → ℕ → List Char → List Char
  | 0, _, acc => acc
  | fuel + 1, n, acc =>
    if n < 10 then digitChar n :: acc
    else natToDigitsAux fuel (n / 10) (digitChar (n % 10) :: acc)

/-- Base-ten rendering of a natural number, most significant digit first,
as Python `str` renders a nonnegative integer. -/
def natToDigits (n : ℕ) : List Char := natToDigitsAux (n + 1) n []

/-- Two-digit zero-padded rendering of a value below one hundred. -/
def padTwo (n : ℕ) : List Char :=
  if n < 10 then ['0', digitChar n] else natToDigits n

/-- ASCII whitespace trimming on both ends: Python `str.strip()`. -/
def trimChars (l : List Char) : List Char :=
  ((l.dropWhile Char.isWhitespace).reverse.dropWhile Char.isWhitespace).reverse

/-- Python `str.lower()`. -/
def pyLowerChars (l : List Char) : List Char := l.map Char.toLower

/-- Value of Python `float(s)`: an exact rational magnitude with a sign, or
one of the non-finite values.  The sign is kept separately so that the sign
of a negative zero survives, as it does in a binary64 value. -/
inductive PyFloat where
  | finite (neg : Bool) (mag : ℚ)
  | inf : PyFloat
  | negInf : PyFloat
  | nan : PyFloat
deriving DecidableEq, Repr

/-- Signed rational value of a finite `PyFloat`. -/
def signedVal (neg : Bool) (mag : ℚ) : ℚ := if neg then -mag else mag

/-- Reads a run of decimal digits that may contain single underscores
between digits (the Python numeric-literal rule), returning the value read,
the number of digits read and the unread remainder. -/
def digitsUAux (acc cnt : ℕ) : List Char → ℕ × ℕ × List Char
  | [] => (acc, cnt, [])
  | c :: rest =>
    if c.isDigit then digitsUAux (10 * acc + dVal c) (cnt + 1) rest
    else if c = '_' then
      match rest with
      | d :: rest2 =>
        if d.isDigit then digitsUAux (10 * acc + dVal d) (cnt + 1) rest2
        else (acc, cnt, c :: rest)
      | [] => (acc, cnt, [c])
    else (acc, cnt, c :: rest)

/-- Runs `digitsUAux` when the input starts with a digit; reads nothing
otherwise. -/
def runDigits (l : List Char) : ℕ × ℕ × List Char :=
  match l with
  | c :: _ => if c.isDigit then digitsUAux 0 0 l else (0, 0, l)
  | [] => (0, 0, [])

/-- Binary64 overflow threshold: a decimal literal of this magnitude or more
converts to an infinity (`2^1024 - 2^970` is halfway between the largest
finite double and `2^1024`, and ties round away from the finite value). -/
def overflowThreshold : ℚ := ((2 ^ 1024 - 2 ^ 970 : ℕ) : ℚ)

/-- Sign handling of Python float parsing: an optional leading `+` or `-`.
Also used for the exponent sign. -/
def parseSign (l : List Char) : Bool × List Char :=
  match l with
  | c :: r => if c = '-' then (true, r) else if c = '+' then (false, r) else (false, c :: r)
  | [] => (false, [])

/-- Mantissa of a Python float literal: integer digits, then an optional
point with fractional digits.  Returns (integer value, integer digit count),
(fraction value, fraction digit count) and the remainder. -/
def parseMantissa (l : List Char) : (ℕ × ℕ) × (ℕ × ℕ) × List Char :=
  let ipart := runDigits l
  let fpart : ℕ × ℕ × List Char :=
    match ipart.2.2 with
    | c :: r => if c = '.' then runDigits r else (0, 0, c :: r)
    | [] => (0, 0, [])
  ((ipart.1, ipart.2.1), (fpart.1, fpart.2.1), fpart.2.2)

/-- Exponent of a Python float literal: nothing, or `e` with an optional
sign and at least one digit. -/
def parseExp (l : List Char) : Option (ℤ × List Char) :=
  match l with
  | c :: r =>
    if c = 'e' then
      let es := parseSign r
      let ed := runDigits es.2
      if ed.2.1 = 0 then none
      else some ((if es.1 then -(ed.1 : ℤ) else (ed.1 : ℤ)), ed.2.2)
    else some (0, c :: r)
  | [] => some (0, [])

/-- Python `float(string)` on an already-stripped character list. -/
def pyFloatOfChars (l : List Char) : Option PyFloat :=
  let sign := parseSign l
  let low := pyLowerChars sign.2
  if low = "inf".toList ∨ low = "infinity".toList then
    some (if sign.1 then PyFloat.negInf else PyFloat.inf)
  else if low = "nan".toList then some PyFloat.nan
  else
    let m := parseMantissa low
    if m.1.2 + m.2.1.2 = 0 then none
    else
      match parseExp m.2.2 with
      | none => none
      | some ex =>
        if ex.2 ≠ [] then none
        else
          let mag : ℚ :=
            ((m.1.1 * 10 ^ m.2.1.2 + m.2.1.1 : ℕ) : ℚ) / (10 : ℚ) ^ m.2.1.2 *
              (10 : ℚ) ^ ex.1
          if overflowThreshold ≤ mag then
            some (if sign.1 then PyFloat.negInf else PyFloat.inf)
          else some (PyFloat.finite sign.1 mag)

/-- Python `float(string)`. -/
def pyFloat? (s : String) : Option PyFloat := pyFloatOfChars s.toList

/-- Python comparison `x >= 0` on a float value; false for `nan`, true for a
negative zero. -/
def pyGE0 : PyFloat → Bool
  | PyFloat.finite neg mag => decide (0 ≤ signedVal neg mag)
  | PyFloat.inf => true
  | PyFloat.negInf => false
  | PyFloat.nan => false

/-- Python `x < 0` on a float value: strictly negative (false for `nan` and
for a negative zero). -/
def pyIsStrictNeg : PyFloat → Bool
  | PyFloat.finite neg mag => decide (signedVal neg mag < 0)
  | PyFloat.inf => false
  | PyFloat.negInf => true
  | PyFloat.nan => false

/-- Round-half-even of a nonnegative rational to a natural number, the
rounding Python `format` applies to a decimal digit string. -/
def roundHalfEven (q : ℚ) : ℕ :=
  let f := q.floor.toNat
  let r := q - q.floor
  if 1 / 2 < r then f + 1
  else if r < 1 / 2 then f
  else if f % 2 = 0 then f else f + 1

/-- Characters of Python `f"{x:.2f}"`. -/
def formatDot2Chars : PyFloat → List Char
  | PyFloat.nan => "nan".toList
  | PyFloat.inf => "inf".toList
  | PyFloat.negInf => "-inf".toList
  | PyFloat.finite neg mag =>
    let n := roundHalfEven (100 * mag)
    (if neg then ['-'] else []) ++ natToDigits (n / 100) ++ '.' :: padTwo (n % 100)

/-- Python `f"{x:.2f}"`. -/
def formatDot2 (f : PyFloat) : String := String.mk (formatDot2Chars f)

/-- Characters removed by the cleaning chain
`.replace("$","").replace(",","").replace("£","").replace("€","")` in
`format_amount`: replacing every occurrence of a one-character pattern by
the empty string deletes exactly that character. -/
def isCurrencyChar (c : Char) : Bool := c = '$' ∨ c = ',' ∨ c = '£' ∨ c = '€'

/-- The cleaning step of `format_amount`: delete currency symbols and
thousands separators, then strip whitespace. -/
def cleanAmountChars (l : List Char) : List Char :=
  trimChars (l.filter (fun c => !isCurrencyChar c))

/-- The amount normalizer `format_amount` of src/app.py: clean the text of
the cell, return `"0.00"` when the cleaned text is empty or is `nan` up to
case, otherwise parse as a Python float and format with two decimals,
returning `"0.00"` on a parse failure. -/
def format_amount (val : Cell) : String :=
  let clean_val := cleanAmountChars (pyStr val).toList
  if clean_val = [] ∨ pyLowerChars clean_val = "nan".toList then "0.00"
  else
    match pyFloatOfChars clean_val with
    | some f => formatDot2 f
    | none => "0.00"

/-- The transaction-type classifier `determine_transaction_type` of
src/app.py: parse the normalized balance string; `"INV"` when the value
compares greater than or equal to zero, `"CRD"` otherwise, `"INV"` when the
parse fails. -/
def determine_transaction_type (balance_str : String) : String :=
  match pyFloat? balance_str with
  | some f => if pyGE0 f then "INV" else "CRD"
  | none => "INV"

/-- Decides whether a character list matches the anchored regular expression
of the specification for Document Balance, `-?\d+\.\d\d`. -/
def matchesAmountChars (l : List Char) : Bool :=
  let body := if l.head? = some '-' then l.tail else l
  let sp := body.span Char.isDigit
  !sp.1.isEmpty && sp.2.length == 3 && sp.2.head? == some '.' &&
    (sp.2.getD 1 ' ').isDigit && (sp.2.getD 2 ' ').isDigit

/-- Decides whether a string matches `-?\d+\.\d\d`. -/
def matchesAmountPattern (s : String) : Bool := matchesAmountChars s.toList

/-- The result of a successful `datetime.strptime`: the fields a parse can
set, pre-filled with the strptime defaults (1900-01-01 00:00:00). -/
structure DateParts where
  year : ℕ := 1900
  month : ℕ := 1
  day : ℕ := 1
  hour : ℕ := 0
  minute : ℕ := 0
  second : ℕ := 0
deriving DecidableEq, Repr

/-- Tokens of a strptime format string: the directives the nine formats of
src/app.py use, plus literal characters. -/
inductive FmtTok where
  | Td : FmtTok
  | Tm : FmtTok
  | TY : FmtTok
  | Tb : FmtTok
  | TH : FmtTok
  | TM : FmtTok
  | TS : FmtTok
  | lit : Char → FmtTok
deriving DecidableEq, Repr

/-- Translates a strptime format string into tokens (`%d`, `%m`, `%Y`,
`%b`, `%H`, `%M`, `%S`; any other character is a literal). -/
def fmtToks : List Char → List FmtTok
  | '%' :: c :: rest =>
    (match c with
     | 'd' => FmtTok.Td
     | 'm' => FmtTok.Tm
     | 'Y' => FmtTok.TY
     | 'b' => FmtTok.Tb
     | 'H' => FmtTok.TH
     | 'M' => FmtTok.TM
     | 'S' => FmtTok.TS
     | other => FmtTok.lit other) :: fmtToks rest
  | c :: rest => FmtTok.lit c :: fmtToks rest
  | [] => []

/-- CPython strptime matcher for `%d`: the regular expression
`3[01]|[12]\d|0[1-9]|[1-9]`, alternatives tried in order. -/
def matchD (l : List Char) : Option (ℕ × List Char) :=
  match l with
  | c1 :: c2 :: rest =>
    if c1 = '3' ∧ (c2 = '0' ∨ c2 = '1') then some (30 + dVal c2, rest)
    else if (c1 = '1' ∨ c1 = '2') ∧ c2.isDigit then some (10 * dVal c1 + dVal c2, rest)
    else if c1 = '0' ∧ ('1' ≤ c2 ∧ c2 ≤ '9') then some (dVal c2, rest)
    else if '1' ≤ c1 ∧ c1 ≤ '9' then some (dVal c1, c2 :: rest)
    else none
  | [c1] => if '1' ≤ c1 ∧ c1 ≤ '9' then some (dVal c1, []) else none
  | [] => none

/-- CPython strptime matcher for `%m`: `1[0-2]|0[1-9]|[1-9]`. -/
def matchMnth (l : List Char) : Option (ℕ × List Char) :=
  match l with
  | c1 :: c2 :: rest =>
    if c1 = '1' ∧ ('0' ≤ c2 ∧ c2 ≤ '2') then some (10 + dVal c2, rest)
    else if c1 = '0' ∧ ('1' ≤ c2 ∧ c2 ≤ '9') then some (dVal c2, rest)
    else if '1' ≤ c1 ∧ c1 ≤ '9' then some (dVal c1, c2 :: rest)
    else none
  | [c1] => if '1' ≤ c1 ∧ c1 ≤ '9' then some (dVal c1, []) else none
  | [] => none

/-- CPython strptime matcher for `%Y`: exactly four digits. -/
def matchY (l : List Char) : Option (ℕ × List Char) :=
  match l with
  | c1 :: c2 :: c3 :: c4 :: rest =>
    if c1.isDigit ∧ c2.isDigit ∧ c3.isDigit ∧ c4.isDigit then
      some (1000 * dVal c1 + 100 * dVal c2 + 10 * dVal c3 + dVal c4, rest)
    else none
  | _ => none

/-- English month abbreviations matched case-insensitively by `%b`. -/
def monthAbbrevs : List (List Char × ℕ) :=
  [("jan".toList, 1), ("feb".toList, 2), ("mar".toList, 3), ("apr".toList, 4),
   ("may".toList, 5), ("jun".toList, 6), ("jul".toList, 7), ("aug".toList, 8),
   ("sep".toList, 9), ("oct".toList, 10), ("nov".toList, 11), ("dec".toList, 12)]

/-- CPython strptime matcher for `%b`: a three-letter month abbreviation,
case-insensitive. -/
def matchB (l : List Char) : Option (ℕ × List Char) :=
  match l with
  | c1 :: c2 :: c3 :: rest =>
    match monthAbbrevs.lookup [c1.toLower, c2.toLower, c3.toLower] with
    | some m => some (m, rest)
    | none => none
  | _ => none

/-- CPython strptime matcher for `%H`: `2[0-3]|[0-1]\d|\d`. -/
def matchH (l : List Char) : Option (ℕ × List Char) :=
  match l with
  | c1 :: c2 :: rest =>
    if c1 = '2' ∧ ('0' ≤ c2 ∧ c2 ≤ '3') then some (20 + dVal c2, rest)
    else if (c1 = '0' ∨ c1 = '1') ∧ c2.isDigit then some (10 * dVal c1 + dVal c2, rest)
    else if c1.isDigit then some (dVal c1, c2 :: rest)
    else none
  | [c1] => if c1.isDigit then some (dVal c1, []) else none
  | [] => none

/-- CPython strptime matcher for `%M` and `%S`: `[0-5]\d|\d`. -/
def matchMS (l : List Char) : Option (ℕ × List Char) :=
  match l with
  | c1 :: c2 :: rest =>
    if ('0' ≤ c1 ∧ c1 ≤ '5') ∧ c2.isDigit then some (10 * dVal c1 + dVal c2, rest)
    else if c1.isDigit then some (dVal c1, c2 :: rest)
    else none
  | [c1] => if c1.isDigit then some (dVal c1, []) else none
  | [] => none

/-- Runs a token list against the data characters, CPython strptime style:
a whitespace literal in the format matches a nonempty whitespace run, any
other literal matches itself, and the whole input must be consumed. -/
def runToks : List FmtTok → List Char → DateParts → Option DateParts
  | [], l, acc => if l = [] then some acc else none
  | t :: ts, l, acc =>
    match t with
    | FmtTok.Td => (matchD l).bind fun p => runToks ts p.2 { acc with day := p.1 }
    | FmtTok.Tm => (matchMnth l).bind fun p => runToks ts p.2 { acc with month := p.1 }
    | FmtTok.TY => (matchY l).bind fun p => runToks ts p.2 { acc with year := p.1 }
    | FmtTok.Tb => (matchB l).bind fun p => runToks ts p.2 { acc with month := p.1 }
    | FmtTok.TH => (matchH l).bind fun p => runToks ts p.2 { acc with hour := p.1 }
    | FmtTok.TM => (matchMS l).bind fun p => runToks ts p.2 { acc with minute := p.1 }
    | FmtTok.TS => (matchMS l).bind fun p => runToks ts p.2 { acc with second := p.1 }
    | FmtTok.lit c =>
      if c.isWhitespace then
        match l with
        | w :: rest =>
          if w.isWhitespace then runToks ts (rest.dropWhile Char.isWhitespace) acc
          else none
        | [] => none
      else
        match l with
        | x :: rest => if x = c then runToks ts rest acc else none
        | [] => none

/-- Gregorian leap-year test. -/
def isLeap (y : ℕ) : Bool := y % 4 = 0 ∧ (y % 100 ≠ 0 ∨ y % 400 = 0)

/-- Number of days in a month. -/
def daysInMonth (y m : ℕ) : ℕ :=
  if m = 2 then (if isLeap y then 29 else 28)
  else if m = 4 ∨ m = 6 ∨ m = 9 ∨ m = 11 then 30 else 31

/-- Python `datetime.strptime(s, fmt)`: token matching over the whole
input, then the `datetime` constructor checks (year at least one, day
within the month; the token grammar already bounds month, hour, minute and
second). -/
def strptime (fmt s : String) : Option DateParts :=
  (runToks (fmtToks fmt.toList) s.toList {}).bind fun p =>
    if 1 ≤ p.year ∧ 1 ≤ p.day ∧ p.day ≤ daysInMonth p.year p.month then some p
    else none

/-- Characters of `datetime.strftime("%d/%m/%Y")`: day and month zero-padded
to two digits; glibc prints the year unpadded. -/
def renderDMYChars (p : DateParts) : List Char :=
  padTwo p.day ++ '/' :: padTwo p.month ++ '/' :: natToDigits p.year

/-- The `strftime("%d/%m/%Y")` rendering used on every parsing success. -/
def renderDMY (p : DateParts) : String := String.mk (renderDMYChars p)

/-- The ordered list of explicit formats tried by `format_date` in
src/app.py. -/
def dateFormats : List String :=
  ["%d/%m/%Y", "%Y-%m-%d", "%d-%m-%Y", "%m/%d/%Y", "%Y/%m/%d",
   "%d-%b-%Y", "%d %b %Y", "%Y-%m-%d %H:%M:%S", "%d/%m/%Y %H:%M:%S"]

/-- The `for fmt in (...): try ... except: continue` loop: formats tried in
order, first success returned. -/
def tryFormats : List String → String → Option DateParts
  | [], _ => none
  | f :: fs, s =>
    match strptime f s with
    | some p => some p
    | none => tryFormats fs s

/-- The date normalizer `format_date` of src/app.py, parameterized by the
external general-purpose parser `pd.to_datetime(val, dayfirst=True,
errors="coerce")`, which is outside the embedded program.  Empty or missing
cells give the empty string; otherwise the nine explicit formats are tried
in order; otherwise the fallback; otherwise the literal text. -/
def format_date (fallback : Cell → Option DateParts) (val : Cell) : String :=
  if pyNotna val = false ∨ trimChars (pyStr val).toList = [] then ""
  else
    match tryFormats dateFormats (pyStr val) with
    | some p => renderDMY p
    | none =>
      match fallback val with
      | some p => renderDMY p
      | none => pyStr val

/-- Normalization applied to a header before alias matching:
`col.lower().strip()`. -/
def normalizeHeader (h : String) : String :=
  String.mk (trimChars (pyLowerChars h.toList))

/-- The five semantic keys of the required-columns dictionary, in its
insertion order. -/
inductive ColKey where
  | customer : ColKey
  | order_number : ColKey
  | reference : ColKey
  | date : ColKey
  | amount : ColKey
deriving DecidableEq, Repr

/-- Dictionary insertion order of the required-columns keys. -/
def keyOrder : List ColKey :=
  [ColKey.customer, ColKey.order_number, ColKey.reference, ColKey.date, ColKey.amount]

/-- The key string of a semantic key, as it appears in the error list. -/
def keyName : ColKey → String
  | ColKey.customer => "customer"
  | ColKey.order_number => "order_number"
  | ColKey.reference => "reference"
  | ColKey.date => "date"
  | ColKey.amount => "amount"

/-- The exact normalized alias each key is matched against. -/
def keyAlias : ColKey → String
  | ColKey.customer => "customer"
  | ColKey.order_number => "order nbr."
  | ColKey.reference => "reference nbr."
  | ColKey.date => "date"
  | ColKey.amount => "amount"

/-- The `required_cols` dictionary: each key holds the actual header bound
to it, or nothing. -/
structure ColumnMap where
  customer : Option String := none
  order_number : Option String := none
  reference : Option String := none
  date : Option String := none
  amount : Option String := none
deriving DecidableEq, Repr

/-- Field access on `ColumnMap` by key. -/
def keyLookup (cm : ColumnMap) : ColKey → Option String
  | ColKey.customer => cm.customer
  | ColKey.order_number => cm.order_number
  | ColKey.reference => cm.reference
  | ColKey.date => cm.date
  | ColKey.amount => cm.amount

/-- One iteration of the header-scanning loop of `process_file`: the
`if/elif` chain on the normalized header, assigning (and overwriting) the
matched key. -/
def updateColumnMap (cm : ColumnMap) (col : String) : ColumnMap :=
  let l := normalizeHeader col
  if l = "customer" then { cm with customer := some col }
  else if l = "order nbr." then { cm with order_number := some col }
  else if l = "reference nbr." then { cm with reference := some col }
  else if l = "date" then { cm with date := some col }
  else if l = "amount" then { cm with amount := some col }
  else cm

/-- The header scan: fold the update over the headers left to right. -/
def resolveColumns (headers : List String) : ColumnMap :=
  headers.foldl updateColumnMap {}

/-- The `missing_cols` list: every key still unbound after the scan, in
dictionary insertion order. -/
def missingCols (cm : ColumnMap) : List String :=
  (keyOrder.filter (fun k => (keyLookup cm k).isNone)).map keyName

/-- The error outcomes of `process_file` (each reported via `st.error`
followed by `return None`). -/
inductive ProcessError where
  | unsupportedFormat : ProcessError
  | emptyInput : ProcessError
  | missingColumns : List String → ProcessError
deriving DecidableEq, Repr

/-- Text a source cell contributes to the synthesized document number:
`str(cell) if pd.notna(cell) else ""`. -/
def cellFieldText (c : Cell) : String := if pyNotna c then pyStr c else ""

/-- The document-number synthesizer `create_document_number` of src/app.py:
`f"O_{order_num}_{reference}"` where a missing cell contributes the empty
string. -/
def create_document_number (order reference : Cell) : String :=
  "O_" ++ cellFieldText order ++ "_" ++ cellFieldText reference

/-- Cell lookup `row[header]`: the value at the position of the header in
the header list. -/
def cellAt (headers : List String) (h : String) (row : List Cell) : Cell :=
  match headers.findIdx? (fun x => x = h) with
  | some i => row.getD i Cell.na
  | none => Cell.na

/-- The transformed fields of one row, before filtering and assembly. -/
structure ProcessedRow where
  debtor : Cell
  documentNumber : String
  documentDate : String
  documentBalance : String
  transactionType : String
deriving DecidableEq, Repr

/-- Per-row application of the four field transformers plus the classifier
(the column-wise `.apply` calls of src/app.py act row-independently). -/
def processRow (fallback : Cell → Option DateParts) (headers : List String)
    (customerCol orderCol referenceCol dateCol amountCol : String)
    (row : List Cell) : ProcessedRow :=
  let balance := format_amount (cellAt headers amountCol row)
  { debtor := cellAt headers customerCol row
    documentNumber :=
      create_document_number (cellAt headers orderCol row) (cellAt headers referenceCol row)
    documentDate := format_date fallback (cellAt headers dateCol row)
    documentBalance := balance
    transactionType := determine_transaction_type balance }

/-- The row-filter predicate of src/app.py: Debtor Reference present and
nonempty after `astype(str).str.strip()`, and likewise Document Number. -/
def rowKeep (r : ProcessedRow) : Bool :=
  pyNotna r.debtor && !(trimChars (pyStr r.debtor).toList == []) &&
    pyNotna (Cell.txt r.documentNumber) &&
    !(trimChars (pyStr (Cell.txt r.documentNumber)).toList == [])

/-- A dataframe: named columns over rows of cells. -/
structure OutputTable where
  columns : List String
  rows : List (List Cell)
deriving DecidableEq, Repr

/-- Cells of a row in the order the Python code assigns the output columns:
Debtor Reference, Document Number, Document Date, Document Balance,
Transaction Type. -/
def assignedCells (r : ProcessedRow) : List Cell :=
  [r.debtor, Cell.txt r.documentNumber, Cell.txt r.documentDate,
   Cell.txt r.documentBalance, Cell.txt r.transactionType]

/-- Column names in Python assignment order. -/
def assignmentOrder : List String :=
  ["Debtor Reference", "Document Number", "Document Date", "Document Balance",
   "Transaction Type"]

/-- The fixed final column order of the output. -/
def finalColumnOrder : List String :=
  ["Debtor Reference", "Transaction Type", "Document Number", "Document Date",
   "Document Balance"]

/-- Column projection `output[[...]]`: select the named columns, in the
order given. -/
def selectColumns (sel : List String) (t : OutputTable) : OutputTable :=
  let idxs := sel.filterMap (fun n => (t.columns.findIdx? (fun x => x = n)).map (fun i => (n, i)))
  { columns := idxs.map (fun p => p.1)
    rows := t.rows.map (fun row => idxs.map (fun p => row.getD p.2 Cell.na)) }

/-- Cells of a row in the final output column order. -/
def finalCells (r : ProcessedRow) : List Cell :=
  [r.debtor, Cell.txt r.transactionType, Cell.txt r.documentNumber,
   Cell.txt r.documentDate, Cell.txt r.documentBalance]

/-- The loaded input table: ordered headers and rows of cells, each row
aligned with the headers positionally. -/
structure RawTable where
  headers : List String
  rows : List (List Cell)
deriving DecidableEq, Repr

/-- The core pipeline `process_file` of src/app.py, starting after the
loader has produced a table (the extension dispatch is pure UI plumbing):
empty-table check, header scan, missing-column check, the four field
transformers, the classifier, the row filter, and the final column
reordering. -/
def process_file (fallback : Cell → Option DateParts) (t : RawTable) :
    Except ProcessError OutputTable :=
  if t.rows.isEmpty then Except.error ProcessError.emptyInput
  else
    let cm := resolveColumns t.headers
    let missing := missingCols cm
    if missing.isEmpty then
      let processed := t.rows.map (processRow fallback t.headers
        (cm.customer.getD "") (cm.order_number.getD "") (cm.reference.getD "")
        (cm.date.getD "") (cm.amount.getD ""))
      let kept := processed.filter rowKeep
      Except.ok (selectColumns finalColumnOrder
        { columns := assignmentOrder, rows := kept.map assignedCells })
    else Except.error (ProcessError.missingColumns missing)

/-! ### Properties of digit rendering -/

theorem digitChar_isDigit {n : ℕ} (h : n < 10) : (digitChar n).isDigit = true := by
  interval_cases n <;> decide

theorem dVal_digitChar {n : ℕ} (h : n < 10) : dVal (digitChar n) = n := by
  interval_cases n <;> decide

theorem digitChar_toNat {n : ℕ} (h : n < 10) : (digitChar n).toNat = 48 + n := by
  interval_cases n <;> decide

theorem isDigit_toNat {c : Char} (h : c.isDigit = true) : 48 ≤ c.toNat ∧ c.toNat ≤ 57 := by
  simp only [Char.isDigit, Bool.and_eq_true, decide_eq_true_eq] at h
  obtain ⟨h1, h2⟩ := h
  exact ⟨h1, h2⟩

theorem natToDigitsAux_acc (fuel : ℕ) : ∀ n acc, n < fuel →
    natToDigitsAux fuel n acc = natToDigitsAux fuel n [] ++ acc := by
  induction fuel with
  | zero => omega
  | succ fuel ih =>
    intro n acc hn
    by_cases h : n < 10
    · simp [natToDigitsAux, h]
    · have h1 : n / 10 < fuel := by omega
      simp only [natToDigitsAux, h, if_false]
      rw [ih (n / 10) (digitChar (n % 10) :: acc) h1, ih (n / 10) [digitChar (n % 10)] h1]
      simp

theorem natToDigitsAux_fuel (fuel : ℕ) : ∀ fuel2 n, n < fuel → n < fuel2 →
    natToDigitsAux fuel n [] = natToDigitsAux fuel2 n [] := by
  induction fuel with
  | zero => omega
  | succ fuel ih =>
    intro fuel2 n hn hn2
    cases fuel2 with
    | zero => omega
    | succ fuel2 =>
      by_cases h : n < 10
      · simp [natToDigitsAux, h]
      · have h1 : n / 10 < fuel := by omega
        have h2 : n / 10 < fuel2 := by omega
        simp only [natToDigitsAux, h, if_false]
        rw [natToDigitsAux_acc fuel (n / 10) _ h1, natToDigitsAux_acc fuel2 (n / 10) _ h2,
          ih fuel2 (n / 10) h1 h2]

theorem natToDigits_eq_of_lt {n : ℕ} (h : n < 10) : natToDigits n = [digitChar n] := by
  unfold natToDigits
  simp [natToDigitsAux, h]

theorem natToDigits_eq_of_ge {n : ℕ} (h : ¬ n < 10) :
    natToDigits n = natToDigits (n / 10) ++ [digitChar (n % 10)] := by
  conv_lhs => rw [natToDigits]
  simp only [natToDigitsAux, h, if_false]
  rw [natToDigitsAux_acc n (n / 10) _ (by omega),
    natToDigitsAux_fuel n (n / 10 + 1) (n / 10) (by omega) (by omega)]
  rfl

theorem natToDigits_all_digits (n : ℕ) : ∀ c ∈ natToDigits n, c.isDigit = true := by
  induction n using Nat.strong_induction_on with
  | _ n ih =>
    by_cases h : n < 10
    · rw [natToDigits_eq_of_lt h]
      intro c hc
      rw [List.mem_singleton] at hc
      exact hc ▸ digitChar_isDigit h
    · rw [natToDigits_eq_of_ge h]
      intro c hc
      rcases List.mem_append.mp hc with h1 | h2
      · exact ih (n / 10) (Nat.div_lt_self (by omega) (by omega)) c h1
      · rw [List.mem_singleton] at h2
        exact h2 ▸ digitChar_isDigit (Nat.mod_lt _ (by omega))

theorem natToDigits_ne_nil (n : ℕ) : natToDigits n ≠ [] := by
  by_cases h : n < 10
  · rw [natToDigits_eq_of_lt h]; simp
  · rw [natToDigits_eq_of_ge h]; simp

/-- Value read back from a digit list, the way `digitsUAux` accumulates. -/
def digitsVal (acc : ℕ) (l : List Char) : ℕ := l.foldl (fun a c => 10 * a + dVal c) acc

theorem digitsVal_append (acc : ℕ) (xs ys : List Char) :
    digitsVal acc (xs ++ ys) = digitsVal (digitsVal acc xs) ys := by
  simp [digitsVal, List.foldl_append]

theorem digitsVal_natToDigits (n : ℕ) : digitsVal 0 (natToDigits n) = n := by
  suffices h : ∀ acc, digitsVal acc (natToDigits n) = acc * 10 ^ (natToDigits n).length + n by
    simpa using h 0
  induction n using Nat.strong_induction_on with
  | _ n ih =>
    intro acc
    by_cases h : n < 10
    · rw [natToDigits_eq_of_lt h]
      simp [digitsVal, dVal_digitChar h]
      ring
    · rw [natToDigits_eq_of_ge h, digitsVal_append]
      have hd : n / 10 < n := Nat.div_lt_self (by omega) (by omega)
      rw [ih (n / 10) hd acc]
      simp [digitsVal, dVal_digitChar (Nat.mod_lt n (show 0 < 10 by omega)),
        List.length_append, pow_succ]
      ring_nf
      omega

/-! ### Digit-run reading -/

/-- A list is a valid stopping point for a digit run: empty, or starting
with something that is neither a digit nor an underscore. -/
def runStop (l : List Char) : Prop :=
  l = [] ∨ ∃ c rs, l = c :: rs ∧ c.isDigit = false ∧ c ≠ '_'

theorem digitsUAux_run (ds : List Char) (hds : ∀ c ∈ ds, c.isDigit = true) :
    ∀ rest, runStop rest → ∀ acc cnt,
      digitsUAux acc cnt (ds ++ rest) = (digitsVal acc ds, cnt + ds.length, rest) := by
  induction ds with
  | nil =>
    intro rest hrest acc cnt
    rcases hrest with h | ⟨c, rs, h, hd, hu⟩
    · subst h
      rw [digitsUAux.eq_def]
      simp [digitsVal]
    · subst h
      rw [digitsUAux.eq_def]
      simp [hd, hu, digitsVal]
  | cons d ds ih =>
    intro rest hrest acc cnt
    have hdd : d.isDigit = true := hds d (List.mem_cons_self d ds)
    have hds2 : ∀ c ∈ ds, c.isDigit = true := fun c hc => hds c (List.mem_cons_of_mem d hc)
    rw [List.cons_append, digitsUAux.eq_def]
    simp only [hdd, if_true]
    rw [ih hds2 rest hrest]
    simp [digitsVal, List.foldl_cons]
    omega

theorem runDigits_run (ds : List Char) (hne : ds ≠ [])
    (hds : ∀ c ∈ ds, c.isDigit = true) (rest : List Char) (hrest : runStop rest) :
    runDigits (ds ++ rest) = (digitsVal 0 ds, ds.length, rest) := by
  match ds, hne with
  | d :: ds2, _ =>
    have hdd : d.isDigit = true := hds d (List.mem_cons_self d ds2)
    simp only [runDigits, List.cons_append, hdd, if_true]
    have := digitsUAux_run (d :: ds2) hds rest hrest 0 0
    simpa using this

/-! ### Character-class facts -/

theorem toLower_eq_self {c : Char} (h : c.toNat < 65) : c.toLower = c := by
  simp only [Char.toLower]
  rw [if_neg]
  simp only [ge_iff_le, Bool.and_eq_true, decide_eq_true_eq, not_and]
  omega

theorem pyLowerChars_eq_self {l : List Char} (h : ∀ c ∈ l, c.toNat < 65) :
    pyLowerChars l = l := by
  unfold pyLowerChars
  rw [List.map_congr_left (fun c hc => toLower_eq_self (h c hc))]
  exact List.map_id l

theorem dropWhile_eq_self_of_all {p : Char → Bool} {l : List Char}
    (h : ∀ c ∈ l, p c = false) : l.dropWhile p = l := by
  cases l with
  | nil => rfl
  | cons c t =>
    rw [List.dropWhile_cons, if_neg]
    simp [h c (List.mem_cons_self c t)]

theorem trimChars_eq_self {l : List Char} (h : ∀ c ∈ l, c.isWhitespace = false) :
    trimChars l = l := by
  unfold trimChars
  rw [dropWhile_eq_self_of_all h]
  rw [dropWhile_eq_self_of_all (fun c hc => h c (List.mem_reverse.mp hc))]
  exact List.reverse_reverse l

theorem filter_eq_self_of_all {p : Char → Bool} {l : List Char}
    (h : ∀ c ∈ l, p c = true) : l.filter p = l := List.filter_eq_self.mpr h

/-- Characters that can occur in a finite `.2f` rendering. -/
def plainNumChar (c : Char) : Prop := c = '-' ∨ c = '.' ∨ c.isDigit = true

theorem plainNumChar_toNat_lt {c : Char} (h : plainNumChar c) : c.toNat < 65 := by
  rcases h with h | h | h
  · subst h; decide
  · subst h; decide
  · have := isDigit_toNat h; omega

theorem ne_of_toNat_ne {c d : Char} (h : c.toNat ≠ d.toNat) : c ≠ d :=
  fun e => h (congrArg Char.toNat e)

theorem plainNumChar_not_ws {c : Char} (h : plainNumChar c) : c.isWhitespace = false := by
  rcases h with h | h | h
  · subst h; decide
  · subst h; decide
  · have hn := isDigit_toNat h
    have h1 : c ≠ ' ' := ne_of_toNat_ne (by have e : (' ').toNat = 32 := rfl; omega)
    have h2 : c ≠ '\t' := ne_of_toNat_ne (by have e : ('\t').toNat = 9 := rfl; omega)
    have h3 : c ≠ '\r' := ne_of_toNat_ne (by have e : ('\r').toNat = 13 := rfl; omega)
    have h4 : c ≠ '\n' := ne_of_toNat_ne (by have e : ('\n').toNat = 10 := rfl; omega)
    simp [Char.isWhitespace, h1, h2, h3, h4]

theorem plainNumChar_not_currency {c : Char} (h : plainNumChar c) :
    isCurrencyChar c = false := by
  rcases h with h | h | h
  · subst h; decide
  · subst h; decide
  · have hn := isDigit_toNat h
    have h1 : c ≠ '$' := ne_of_toNat_ne (by have e : ('$').toNat = 36 := rfl; omega)
    have h2 : c ≠ ',' := ne_of_toNat_ne (by have e : (',').toNat = 44 := rfl; omega)
    have h3 : c ≠ '£' := ne_of_toNat_ne (by have e : ('£').toNat = 163 := rfl; omega)
    have h4 : c ≠ '€' := ne_of_toNat_ne (by have e : ('€').toNat = 8364 := rfl; omega)
    simp [isCurrencyChar, h1, h2, h3, h4]

theorem formatDot2Chars_finite_plain (neg : Bool) (mag : ℚ) :
    ∀ c ∈ formatDot2Chars (PyFloat.finite neg mag), plainNumChar c := by
  intro c hc
  simp only [formatDot2Chars] at hc
  rcases List.mem_append.mp hc with h1 | h2
  · rcases List.mem_append.mp h1 with h3 | h4
    · cases neg <;> simp at h3
      left; exact h3
    · right; right; exact natToDigits_all_digits _ c h4
  · rcases List.mem_cons.mp h2 with h3 | h4
    · right; left; exact h3
    · right; right
      unfold padTwo at h4
      split at h4
      · rcases List.mem_cons.mp h4 with h5 | h5
        · subst h5; decide
        · rw [List.mem_singleton] at h5
          subst h5
          exact digitChar_isDigit (by omega)
      · exact natToDigits_all_digits _ c h4

/-! ### Structure of the two-decimal rendering -/

theorem padTwo_spec {b : ℕ} (h : b < 100) :
    ∃ c1 c2, padTwo b = [c1, c2] ∧ c1.isDigit = true ∧ c2.isDigit = true ∧
      10 * dVal c1 + dVal c2 = b := by
  unfold padTwo
  by_cases hb : b < 10
  · rw [if_pos hb]
    refine ⟨'0', digitChar b, rfl, by decide, digitChar_isDigit hb, ?_⟩
    rw [dVal_digitChar hb]
    have e : dVal '0' = 0 := rfl
    omega
  · rw [if_neg hb, natToDigits_eq_of_ge hb,
      natToDigits_eq_of_lt (show b / 10 < 10 by omega)]
    refine ⟨digitChar (b / 10), digitChar (b % 10), rfl,
      digitChar_isDigit (by omega), digitChar_isDigit (by omega), ?_⟩
    rw [dVal_digitChar (by omega), dVal_digitChar (by omega)]
    omega

theorem takeWhile_digits_append {ds : List Char} (h : ∀ c ∈ ds, c.isDigit = true)
    {c : Char} (hc : c.isDigit = false) (r : List Char) :
    (ds ++ c :: r).takeWhile Char.isDigit = ds ∧
      (ds ++ c :: r).dropWhile Char.isDigit = c :: r := by
  induction ds with
  | nil =>
    constructor
    · rw [List.nil_append, List.takeWhile_cons, if_neg (by simp [hc])]
    · rw [List.nil_append, List.dropWhile_cons, if_neg (by simp [hc])]
  | cons d ds ih =>
    have hd : d.isDigit = true := h d (List.mem_cons_self d ds)
    obtain ⟨iht, ihd⟩ := ih (fun x hx => h x (List.mem_cons_of_mem d hx))
    constructor
    · rw [List.cons_append, List.takeWhile_cons, if_pos (by simp [hd]), iht]
    · rw [List.cons_append, List.dropWhile_cons, if_pos (by simp [hd]), ihd]

theorem matchesAmount_of_shape {ds : List Char} (hne : ds ≠ [])
    (hdig : ∀ c ∈ ds, c.isDigit = true) {c1 c2 : Char} (h1 : c1.isDigit = true)
    (h2 : c2.isDigit = true) (neg : Bool) :
    matchesAmountChars ((if neg then ['-'] else []) ++ ds ++ '.' :: [c1, c2]) = true := by
  have hdot : ('.').isDigit = false := by decide
  obtain ⟨d, ds2, hcons⟩ := List.exists_cons_of_ne_nil hne
  subst hcons
  have hd : d.isDigit = true := hdig d (List.mem_cons_self d ds2)
  have hdm : d ≠ '-' := ne_of_toNat_ne (by
    have := isDigit_toNat hd
    have e : ('-').toNat = 45 := rfl
    omega)
  have hsp := takeWhile_digits_append hdig hdot [c1, c2]
  cases neg with
  | false =>
    simp only [Bool.false_eq_true, if_false, List.nil_append, matchesAmountChars,
      List.cons_append, List.head?_cons]
    rw [if_neg (by simp [hdm]), List.span_eq_take_drop]
    simp only [List.cons_append] at hsp
    simp only [hsp.1, hsp.2]
    simp [h1, h2]
  | true =>
    simp only [if_true, List.singleton_append, matchesAmountChars, List.cons_append,
      List.nil_append]
    rw [if_pos (show ('-' :: d :: (ds2 ++ ['.', c1, c2])).head? = some '-' from rfl)]
    rw [List.tail_cons, List.span_eq_take_drop]
    simp only [List.cons_append] at hsp
    simp only [hsp.1, hsp.2]
    simp [h1, h2]

theorem matchesAmount_format (neg : Bool) (mag : ℚ) :
    matchesAmountChars (formatDot2Chars (PyFloat.finite neg mag)) = true := by
  have hmod : roundHalfEven (100 * mag) % 100 < 100 := Nat.mod_lt _ (by omega)
  obtain ⟨c1, c2, hpad, h1, h2, _⟩ := padTwo_spec hmod
  have hshape : formatDot2Chars (PyFloat.finite neg mag) =
      (if neg then ['-'] else []) ++ natToDigits (roundHalfEven (100 * mag) / 100) ++
        '.' :: [c1, c2] := by
    simp only [formatDot2Chars, hpad]
  rw [hshape]
  exact matchesAmount_of_shape (natToDigits_ne_nil _) (natToDigits_all_digits _) h1 h2 neg

/-! ### Rounding facts -/

theorem roundHalfEven_natCast (n : ℕ) : roundHalfEven (n : ℚ) = n := by
  unfold roundHalfEven
  have hf : ((n : ℚ)).floor = (n : ℤ) := by
    show ⌊(n : ℚ)⌋ = (n : ℤ)
    exact Int.floor_natCast n
  rw [hf]
  have h0 : (n : ℚ) - ((n : ℤ) : ℚ) = 0 := by push_cast; ring
  rw [h0]
  norm_num

theorem roundHalfEven_eq_zero {q : ℚ} (h0 : 0 ≤ q) (h : q < 1 / 2) :
    roundHalfEven q = 0 := by
  unfold roundHalfEven
  have hf : q.floor = 0 := by
    show ⌊q⌋ = 0
    exact Int.floor_eq_zero_iff.mpr (Set.mem_Ico.mpr ⟨h0, by linarith⟩)
  rw [hf]
  simp only [Int.toNat_zero]
  have : q - ((0 : ℤ) : ℚ) = q := by push_cast; ring
  rw [this, if_neg (by linarith), if_pos h]

/-! ### Parsing a formatted two-decimal string -/

theorem parseSign_not_sign {d : Char} (hdm : d ≠ '-') (hdp : d ≠ '+') (r : List Char) :
    parseSign (d :: r) = (false, d :: r) := by
  simp [parseSign, hdm, hdp]

theorem parseSign_neg (r : List Char) : parseSign ('-' :: r) = (true, r) := by
  simp [parseSign]

theorem parseMantissa_shape {ds : List Char} (hne : ds ≠ [])
    (hdig : ∀ c ∈ ds, c.isDigit = true) {c1 c2 : Char} (h1 : c1.isDigit = true)
    (h2 : c2.isDigit = true) :
    parseMantissa (ds ++ '.' :: [c1, c2]) =
      ((digitsVal 0 ds, ds.length), (10 * dVal c1 + dVal c2, 2), []) := by
  have hdig2 : ∀ c ∈ [c1, c2], c.isDigit = true := by
    intro c hcm
    rcases List.mem_cons.mp hcm with hm | hm
    · subst hm; exact h1
    · rw [List.mem_singleton] at hm
      subst hm; exact h2
  have hrun2 : runDigits [c1, c2] = (10 * dVal c1 + dVal c2, 2, []) := by
    have h := runDigits_run [c1, c2] (by simp) hdig2 [] (Or.inl rfl)
    simp only [List.append_nil] at h
    rw [h]
    simp [digitsVal]
  simp only [parseMantissa]
  rw [runDigits_run ds hne hdig ('.' :: [c1, c2])
    (Or.inr ⟨'.', [c1, c2], rfl, by decide, by decide⟩)]
  simp [hrun2]

theorem parseExp_nil : parseExp [] = some (0, []) := rfl

theorem pyFloatOfChars_spec {l body : List Char} {neg : Bool}
    (hsig : parseSign l = (neg, body))
    (hlow : pyLowerChars body = body)
    (hinf : body ≠ "inf".toList) (hinfy : body ≠ "infinity".toList)
    (hnan : body ≠ "nan".toList)
    {iv ic fv fc : ℕ}
    (hman : parseMantissa body = ((iv, ic), (fv, fc), []))
    (hcnt : ¬(ic + fc = 0)) :
    pyFloatOfChars l =
      (if overflowThreshold ≤ ((iv * 10 ^ fc + fv : ℕ) : ℚ) / (10 : ℚ) ^ fc * (10 : ℚ) ^ (0 : ℤ)
       then some (if neg then PyFloat.negInf else PyFloat.inf)
       else some (PyFloat.finite neg
         (((iv * 10 ^ fc + fv : ℕ) : ℚ) / (10 : ℚ) ^ fc * (10 : ℚ) ^ (0 : ℤ)))) := by
  simp only [pyFloatOfChars, hsig, hlow, hman, parseExp_nil]
  rw [if_neg (not_or.mpr ⟨hinf, hinfy⟩), if_neg hnan, if_neg hcnt,
    if_neg (show ¬(([] : List Char) ≠ []) by simp)]

theorem parse_of_shape (neg : Bool) {ds : List Char} (hne : ds ≠ [])
    (hdig : ∀ c ∈ ds, c.isDigit = true) {c1 c2 : Char} (h1 : c1.isDigit = true)
    (h2 : c2.isDigit = true) :
    pyFloatOfChars ((if neg then ['-'] else []) ++ ds ++ '.' :: [c1, c2]) =
      (if overflowThreshold ≤
          ((digitsVal 0 ds * 100 + (10 * dVal c1 + dVal c2) : ℕ) : ℚ) / 100 then
        some (if neg then PyFloat.negInf else PyFloat.inf)
      else some (PyFloat.finite neg
        (((digitsVal 0 ds * 100 + (10 * dVal c1 + dVal c2) : ℕ) : ℚ) / 100))) := by
  obtain ⟨d, ds2, hc⟩ := List.exists_cons_of_ne_nil hne
  have hd : d.isDigit = true := by
    subst hc
    exact hdig d (List.mem_cons_self d ds2)
  have hdn := isDigit_toNat hd
  have hdm : d ≠ '-' := ne_of_toNat_ne (by have e : ('-').toNat = 45 := rfl; omega)
  have hdp : d ≠ '+' := ne_of_toNat_ne (by have e : ('+').toNat = 43 := rfl; omega)
  have hbodylt : ∀ c ∈ ds ++ '.' :: [c1, c2], c.toNat < 65 := by
    intro c hcm
    rcases List.mem_append.mp hcm with hm | hm
    · exact plainNumChar_toNat_lt (Or.inr (Or.inr (hdig c hm)))
    · rcases List.mem_cons.mp hm with hm2 | hm2
      · subst hm2; decide
      · rcases List.mem_cons.mp hm2 with hm3 | hm3
        · subst hm3; exact plainNumChar_toNat_lt (Or.inr (Or.inr h1))
        · rw [List.mem_singleton] at hm3
          subst hm3; exact plainNumChar_toNat_lt (Or.inr (Or.inr h2))
  have hlow : pyLowerChars (ds ++ '.' :: [c1, c2]) = ds ++ '.' :: [c1, c2] :=
    pyLowerChars_eq_self hbodylt
  have hinf : ¬(ds ++ '.' :: [c1, c2] = "inf".toList) := by
    intro h
    have e : "inf".toList = ['i', 'n', 'f'] := rfl
    rw [hc, e, List.cons_append, List.cons.injEq] at h
    exact absurd h.1 (ne_of_toNat_ne (by have e2 : ('i').toNat = 105 := rfl; omega))
  have hinfy : ¬(ds ++ '.' :: [c1, c2] = "infinity".toList) := by
    intro h
    have e : "infinity".toList = ['i', 'n', 'f', 'i', 'n', 'i', 't', 'y'] := rfl
    rw [hc, e, List.cons_append, List.cons.injEq] at h
    exact absurd h.1 (ne_of_toNat_ne (by have e2 : ('i').toNat = 105 := rfl; omega))
  have hnn : ¬(ds ++ '.' :: [c1, c2] = "nan".toList) := by
    intro h
    have e : "nan".toList = ['n', 'a', 'n'] := rfl
    rw [hc, e, List.cons_append, List.cons.injEq] at h
    exact absurd h.1 (ne_of_toNat_ne (by have e2 : ('n').toNat = 110 := rfl; omega))
  have hman := parseMantissa_shape hne hdig h1 h2
  have hcnt : ¬(ds.length + 2 = 0) := by omega
  have hmag : ((digitsVal 0 ds * 10 ^ 2 + (10 * dVal c1 + dVal c2) : ℕ) : ℚ) /
        (10 : ℚ) ^ 2 * (10 : ℚ) ^ ((0 : ℤ)) =
      ((digitsVal 0 ds * 100 + (10 * dVal c1 + dVal c2) : ℕ) : ℚ) / 100 := by
    norm_num
  cases neg with
  | false =>
    simp only [Bool.false_eq_true, if_false, List.nil_append]
    have hsig : parseSign (ds ++ '.' :: [c1, c2]) = (false, ds ++ '.' :: [c1, c2]) := by
      rw [hc, List.cons_append, parseSign_not_sign hdm hdp, ← List.cons_append]
    refine (pyFloatOfChars_spec hsig hlow hinf hinfy hnn hman hcnt).trans ?_
    rw [hmag]
    simp
  | true =>
    simp only [if_true, List.singleton_append]
    have hsig : parseSign ('-' :: (ds ++ '.' :: [c1, c2])) = (true, ds ++ '.' :: [c1, c2]) :=
      parseSign_neg _
    refine (pyFloatOfChars_spec hsig hlow hinf hinfy hnn hman hcnt).trans ?_
    rw [hmag]
    simp

theorem formatDot2Chars_shape (neg : Bool) (mag : ℚ) {c1 c2 : Char}
    (hpad : padTwo (roundHalfEven (100 * mag) % 100) = [c1, c2]) :
    formatDot2Chars (PyFloat.finite neg mag) =
      (if neg then ['-'] else []) ++
        natToDigits (roundHalfEven (100 * mag) / 100) ++ '.' :: [c1, c2] := by
  simp only [formatDot2Chars, hpad]

theorem parse_format_finite (neg : Bool) (mag : ℚ) :
    pyFloatOfChars (formatDot2Chars (PyFloat.finite neg mag)) =
      (if overflowThreshold ≤ ((roundHalfEven (100 * mag) : ℕ) : ℚ) / 100 then
        some (if neg then PyFloat.negInf else PyFloat.inf)
      else some (PyFloat.finite neg (((roundHalfEven (100 * mag) : ℕ) : ℚ) / 100))) := by
  obtain ⟨c1, c2, hpad, h1, h2, hval⟩ := padTwo_spec (Nat.mod_lt (roundHalfEven (100 * mag))
    (show 0 < 100 by omega))
  rw [formatDot2Chars_shape neg mag hpad,
    parse_of_shape neg (natToDigits_ne_nil _) (natToDigits_all_digits _) h1 h2]
  have hv : digitsVal 0 (natToDigits (roundHalfEven (100 * mag) / 100)) * 100 +
      (10 * dVal c1 + dVal c2) = roundHalfEven (100 * mag) := by
    rw [digitsVal_natToDigits, hval]
    omega
  rw [hv]

theorem parse_finite_nonneg {l : List Char} {neg : Bool} {mag : ℚ}
    (hp : pyFloatOfChars l = some (PyFloat.finite neg mag)) : 0 ≤ mag := by
  simp only [pyFloatOfChars] at hp
  split at hp
  · exact absurd hp (by split <;> simp)
  · split at hp
    · exact absurd hp (by simp)
    · split at hp
      · exact absurd hp (by simp)
      · split at hp
        · exact absurd hp (by simp)
        · split at hp
          · exact absurd hp (by simp)
          · split at hp
            · exact absurd hp (by split <;> simp)
            · rw [Option.some.injEq, PyFloat.finite.injEq] at hp
              rw [← hp.2]
              positivity

theorem formatDot2Chars_finite_ne_nil (neg : Bool) (mag : ℚ) :
    formatDot2Chars (PyFloat.finite neg mag) ≠ [] := by
  simp only [formatDot2Chars]
  intro h
  rcases List.append_eq_nil.mp h with ⟨h1, h2⟩
  rcases List.append_eq_nil.mp h1 with ⟨_, h3⟩
  exact natToDigits_ne_nil _ h3

theorem cleanAmount_format_fix (neg : Bool) (mag : ℚ) :
    cleanAmountChars (formatDot2Chars (PyFloat.finite neg mag)) =
      formatDot2Chars (PyFloat.finite neg mag) := by
  unfold cleanAmountChars
  rw [filter_eq_self_of_all (fun c hc => by
    rw [Bool.not_eq_true', ← Bool.not_eq_true]
    intro hcur
    rw [plainNumChar_not_currency (formatDot2Chars_finite_plain neg mag c hc)] at hcur
    exact Bool.false_ne_true hcur)]
  exact trimChars_eq_self (fun c hc => plainNumChar_not_ws (formatDot2Chars_finite_plain neg mag c hc))

theorem lower_format_ne_nan (neg : Bool) (mag : ℚ) :
    pyLowerChars (formatDot2Chars (PyFloat.finite neg mag)) ≠ "nan".toList := by
  rw [pyLowerChars_eq_self (fun c hc =>
    plainNumChar_toNat_lt (formatDot2Chars_finite_plain neg mag c hc))]
  obtain ⟨c1, c2, hpad, _, _, _⟩ := padTwo_spec (Nat.mod_lt (roundHalfEven (100 * mag))
    (show 0 < 100 by omega))
  rw [formatDot2Chars_shape neg mag hpad]
  obtain ⟨d, ds2, hc⟩ :=
    List.exists_cons_of_ne_nil (natToDigits_ne_nil (roundHalfEven (100 * mag) / 100))
  have hd : d.isDigit = true :=
    natToDigits_all_digits _ d (hc ▸ List.mem_cons_self d ds2)
  have hdn := isDigit_toNat hd
  have e : "nan".toList = ['n', 'a', 'n'] := rfl
  cases neg with
  | false =>
    simp only [Bool.false_eq_true, if_false, List.nil_append]
    rw [hc, e]
    simp only [List.cons_append]
    intro h
    injection h with h1 _
    exact absurd h1 (ne_of_toNat_ne (by have e2 : ('n').toNat = 110 := rfl; omega))
  | true =>
    simp only [if_true, List.singleton_append]
    rw [e]
    intro h
    injection h with h1 _
    exact absurd h1 (by decide)

/-- Re-normalizing a finite two-decimal rendering whose value re-reads below
the overflow threshold returns it unchanged. -/
theorem format_amount_fix (neg : Bool) (mag : ℚ)
    (hlt : ¬ overflowThreshold ≤ ((roundHalfEven (100 * mag) : ℕ) : ℚ) / 100) :
    format_amount (Cell.txt (formatDot2 (PyFloat.finite neg mag))) =
      formatDot2 (PyFloat.finite neg mag) := by
  have htl : (formatDot2 (PyFloat.finite neg mag)).toList =
      formatDot2Chars (PyFloat.finite neg mag) := rfl
  simp only [format_amount, pyStr, htl, cleanAmount_format_fix]
  rw [if_neg (not_or.mpr ⟨formatDot2Chars_finite_ne_nil neg mag, lower_format_ne_nan neg mag⟩)]
  rw [parse_format_finite neg mag, if_neg hlt]
  have hround : roundHalfEven (100 * (((roundHalfEven (100 * mag) : ℕ) : ℚ) / 100)) =
      roundHalfEven (100 * mag) := by
    have h100 : (100 : ℚ) * (((roundHalfEven (100 * mag) : ℕ) : ℚ) / 100) =
        ((roundHalfEven (100 * mag) : ℕ) : ℚ) := by
      field_simp
    rw [h100, roundHalfEven_natCast]
  simp only [formatDot2, formatDot2Chars, hround]

theorem parse_nil : pyFloatOfChars [] = none := rfl

theorem parse_of_lower_nan {l : List Char} (h : pyLowerChars l = "nan".toList) :
    pyFloatOfChars l = some PyFloat.nan := by
  have hlen : l.length = 3 := by
    have hl := congrArg List.length h
    simpa [pyLowerChars] using hl
  obtain ⟨x, y, z, hxyz⟩ := List.length_eq_three.mp hlen
  subst hxyz
  have hmap := h
  simp only [pyLowerChars, List.map_cons, List.map_nil] at h
  injection h with h1 h'
  have hx : x ≠ '-' := by
    intro e
    subst e
    exact absurd h1 (by decide)
  have hxp : x ≠ '+' := by
    intro e
    subst e
    exact absurd h1 (by decide)
  have hsig : parseSign [x, y, z] = (false, [x, y, z]) := parseSign_not_sign hx hxp _
  simp only [pyFloatOfChars, hsig, hmap]
  simp

theorem format_finite_ne_inf (neg : Bool) (mag : ℚ) :
    formatDot2 (PyFloat.finite neg mag) ≠ "inf" := by
  obtain ⟨c1, c2, hpad, _, _, _⟩ := padTwo_spec (Nat.mod_lt (roundHalfEven (100 * mag))
    (show 0 < 100 by omega))
  obtain ⟨d, ds2, hc⟩ :=
    List.exists_cons_of_ne_nil (natToDigits_ne_nil (roundHalfEven (100 * mag) / 100))
  have hd : d.isDigit = true :=
    natToDigits_all_digits _ d (hc ▸ List.mem_cons_self d ds2)
  have hdn := isDigit_toNat hd
  intro h
  have hdata : formatDot2Chars (PyFloat.finite neg mag) = "inf".toList :=
    congrArg String.toList h
  rw [formatDot2Chars_shape neg mag hpad] at hdata
  have e : "inf".toList = ['i', 'n', 'f'] := rfl
  cases neg with
  | false =>
    rw [hc, e] at hdata
    simp only [Bool.false_eq_true, if_false, List.nil_append, List.cons_append] at hdata
    injection hdata with h1 _
    exact absurd h1 (ne_of_toNat_ne (by have e2 : ('i').toNat = 105 := rfl; omega))
  | true =>
    rw [e] at hdata
    simp only [if_true, List.singleton_append] at hdata
    injection hdata with h1 _
    exact absurd h1 (by decide)

theorem format_finite_ne_neg_inf (neg : Bool) (mag : ℚ) :
    formatDot2 (PyFloat.finite neg mag) ≠ "-inf" := by
  obtain ⟨c1, c2, hpad, _, _, _⟩ := padTwo_spec (Nat.mod_lt (roundHalfEven (100 * mag))
    (show 0 < 100 by omega))
  obtain ⟨d, ds2, hc⟩ :=
    List.exists_cons_of_ne_nil (natToDigits_ne_nil (roundHalfEven (100 * mag) / 100))
  have hd : d.isDigit = true :=
    natToDigits_all_digits _ d (hc ▸ List.mem_cons_self d ds2)
  have hdn := isDigit_toNat hd
  intro h
  have hdata : formatDot2Chars (PyFloat.finite neg mag) = "-inf".toList :=
    congrArg String.toList h
  rw [formatDot2Chars_shape neg mag hpad] at hdata
  have e : "-inf".toList = ['-', 'i', 'n', 'f'] := rfl
  cases neg with
  | false =>
    rw [hc, e] at hdata
    simp only [Bool.false_eq_true, if_false, List.nil_append, List.cons_append] at hdata
    injection hdata with h1 _
    exact absurd h1 (ne_of_toNat_ne (by have e2 : ('-').toNat = 45 := rfl; omega))
  | true =>
    rw [hc, e] at hdata
    simp only [if_true, List.singleton_append, List.cons_append] at hdata
    injection hdata with _ h2
    injection h2 with h1 _
    exact absurd h1 (ne_of_toNat_ne (by have e2 : ('i').toNat = 105 := rfl; omega))

/-- Case analysis of `determine_transaction_type`: it answers `"CRD"`
exactly when the balance parses to a strictly negative value, a negative
infinity, or a NaN. -/
theorem determine_crd_iff (s : String) :
    determine_transaction_type s = "CRD" ↔
      (∃ f, pyFloat? s = some f ∧ (pyIsStrictNeg f = true ∨ f = PyFloat.nan)) := by
  cases hp : pyFloat? s with
  | none =>
    have hd : determine_transaction_type s = "INV" := by
      unfold determine_transaction_type
      rw [hp]
    rw [hd]
    simp
  | some f =>
    have hd : determine_transaction_type s = (if pyGE0 f = true then "INV" else "CRD") := by
      unfold determine_transaction_type
      rw [hp]
    rw [hd]
    cases f with
    | finite neg mag =>
      by_cases hge : (0 : ℚ) ≤ signedVal neg mag
      · rw [if_pos (by simp [pyGE0, hge])]
        constructor
        · intro h
          exact absurd h (by decide)
        · rintro ⟨f, hf, hneg | hnan⟩
          · rw [Option.some.injEq] at hf
            subst hf
            simp only [pyIsStrictNeg, decide_eq_true_eq] at hneg
            linarith
          · subst hnan
            simp at hf
      · rw [if_neg (by simp [pyGE0, hge])]
        constructor
        · intro _
          exact ⟨PyFloat.finite neg mag, rfl,
            Or.inl (by simp only [pyIsStrictNeg, decide_eq_true_eq]; linarith)⟩
        · intro _
          rfl
    | inf =>
      rw [if_pos (by simp [pyGE0])]
      constructor
      · intro h
        exact absurd h (by decide)
      · rintro ⟨f, hf, hneg | hnan⟩
        · rw [Option.some.injEq] at hf
          subst hf
          simp [pyIsStrictNeg] at hneg
        · subst hnan
          simp at hf
    | negInf =>
      rw [if_neg (by simp [pyGE0])]
      constructor
      · intro _
        exact ⟨PyFloat.negInf, rfl, Or.inl rfl⟩
      · intro _
        rfl
    | nan =>
      rw [if_neg (by simp [pyGE0])]
      constructor
      · intro _
        exact ⟨PyFloat.nan, rfl, Or.inr rfl⟩
      · intro _
        rfl

/-- C1 counterexample: the raw amount cell `"inf"` is accepted by the
numeric parse and formatted as `"inf"`, which matches neither the pattern
`-?\d+\.\d\d` nor `"0.00"`, refuting the claim as stated. -/
theorem C1_counterexample :
    matchesAmountPattern (format_amount (Cell.txt "inf")) = false ∧
      format_amount (Cell.txt "inf") = "inf" := by
  constructor <;> rfl

/-- C1 (amended): for every amount cell whose cleaned text does not parse
to an infinity or a NaN, the Document Balance string matches
`-?\d+\.\d\d`, and it is `"0.00"` whenever the cleaned text is empty,
case-insensitively `nan`, or unparsable. -/
theorem C1_amount_pattern (c : Cell)
    (h1 : pyFloatOfChars (cleanAmountChars (pyStr c).toList) ≠ some PyFloat.inf)
    (h2 : pyFloatOfChars (cleanAmountChars (pyStr c).toList) ≠ some PyFloat.negInf)
    (h3 : pyFloatOfChars (cleanAmountChars (pyStr c).toList) ≠ some PyFloat.nan) :
    matchesAmountPattern (format_amount c) = true ∧
      ((cleanAmountChars (pyStr c).toList = [] ∨
        pyLowerChars (cleanAmountChars (pyStr c).toList) = "nan".toList ∨
        pyFloatOfChars (cleanAmountChars (pyStr c).toList) = none) →
        format_amount c = "0.00") := by
  by_cases hb : cleanAmountChars (pyStr c).toList = [] ∨
      pyLowerChars (cleanAmountChars (pyStr c).toList) = "nan".toList
  · have h00 : format_amount c = "0.00" := by
      simp only [format_amount]
      rw [if_pos hb]
    exact ⟨by rw [h00]; rfl, fun _ => h00⟩
  · cases hp : pyFloatOfChars (cleanAmountChars (pyStr c).toList) with
    | none =>
      have h00 : format_amount c = "0.00" := by
        simp only [format_amount]
        rw [if_neg hb, hp]
      exact ⟨by rw [h00]; rfl, fun _ => h00⟩
    | some f =>
      have hfa : format_amount c = formatDot2 f := by
        simp only [format_amount]
        rw [if_neg hb, hp]
      cases f with
      | nan => exact absurd hp h3
      | inf => exact absurd hp h1
      | negInf => exact absurd hp h2
      | finite neg mag =>
        constructor
        · rw [hfa]
          exact matchesAmount_format neg mag
        · intro hd
          rcases hd with hd | hd | hd
          · exact absurd (Or.inl hd) hb
          · exact absurd (Or.inr hd) hb
          · exact absurd hd (by simp)

/-- C1 witness: the hypotheses hold and the pattern is matched at the
concrete currency-formatted input of Scenario A. -/
theorem C1_witness :
    pyFloatOfChars (cleanAmountChars (pyStr (Cell.txt "$1,200.50")).toList) ≠
        some PyFloat.inf ∧
      matchesAmountPattern (format_amount (Cell.txt "$1,200.50")) = true :=
  ⟨by decide, (C1_amount_pattern (Cell.txt "$1,200.50") (by decide) (by decide)
    (by decide)).1⟩

/-- C2 counterexample: the raw amount `"+nan"` produces the Document
Balance `"nan"`, which the classifier marks `"CRD"` although its parse is
NaN, not a strictly negative number — so `Transaction Type = "CRD"` does
not imply `parse(Document Balance) < 0`. -/
theorem C2_counterexample :
    format_amount (Cell.txt "+nan") = "nan" ∧
      determine_transaction_type (format_amount (Cell.txt "+nan")) = "CRD" ∧
      pyFloat? (format_amount (Cell.txt "+nan")) = some PyFloat.nan ∧
      pyIsStrictNeg PyFloat.nan = false := by
  refine ⟨rfl, rfl, rfl, rfl⟩

/-- C2 (amended): for every row, the Transaction Type of the normalized
balance is `"CRD"` if and only if the balance parses to a strictly
negative value (including negative infinity) or to NaN; in every other
case — nonnegative value (including a negative zero), positive infinity,
or parse failure — it is `"INV"`. -/
theorem C2_crd_iff (c : Cell) :
    determine_transaction_type (format_amount c) = "CRD" ↔
      (∃ f, pyFloat? (format_amount c) = some f ∧
        (pyIsStrictNeg f = true ∨ f = PyFloat.nan)) :=
  determine_crd_iff (format_amount c)

/-- C9 counterexample: `format_amount` maps the raw cell `"+nan"` to the
string `"nan"`, and re-normalizing that output gives `"0.00"`, not
`"nan"` — so the normalizer is not idempotent on its own output. -/
theorem C9_counterexample :
    format_amount (Cell.txt "+nan") = "nan" ∧
      format_amount (Cell.txt (format_amount (Cell.txt "+nan"))) = "0.00" ∧
      ("0.00" : String) ≠ "nan" := by
  refine ⟨rfl, rfl, by decide⟩

/-- C9 (amended): re-normalizing a produced balance string returns it
unchanged, except when that string is `"nan"`; the hypotheses also set
aside outputs that re-read as overflowing to an infinity other than the
literal `"inf"`/`"-inf"` renderings (in binary64 arithmetic no such output
exists; in this exact-rational model it is the single rendering of the
overflow threshold itself). -/
theorem C9_idem (c : Cell)
    (hnan : format_amount c ≠ "nan")
    (hov1 : pyFloat? (format_amount c) = some PyFloat.inf → format_amount c = "inf")
    (hov2 : pyFloat? (format_amount c) = some PyFloat.negInf → format_amount c = "-inf") :
    format_amount (Cell.txt (format_amount c)) = format_amount c := by
  by_cases hb : cleanAmountChars (pyStr c).toList = [] ∨
      pyLowerChars (cleanAmountChars (pyStr c).toList) = "nan".toList
  · have h00 : format_amount c = "0.00" := by
      simp only [format_amount]
      rw [if_pos hb]
    rw [h00]
    rfl
  · cases hp : pyFloatOfChars (cleanAmountChars (pyStr c).toList) with
    | none =>
      have h00 : format_amount c = "0.00" := by
        simp only [format_amount]
        rw [if_neg hb, hp]
      rw [h00]
      rfl
    | some f =>
      have hfa : format_amount c = formatDot2 f := by
        simp only [format_amount]
        rw [if_neg hb, hp]
      cases f with
      | nan => exact absurd hfa hnan
      | inf =>
        rw [hfa]
        rfl
      | negInf =>
        rw [hfa]
        rfl
      | finite neg mag =>
        by_cases hov : overflowThreshold ≤ ((roundHalfEven (100 * mag) : ℕ) : ℚ) / 100
        · exfalso
          have hpp : pyFloat? (format_amount c) =
              some (if neg then PyFloat.negInf else PyFloat.inf) := by
            rw [hfa]
            show pyFloatOfChars (formatDot2Chars (PyFloat.finite neg mag)) = _
            rw [parse_format_finite neg mag, if_pos hov]
          cases neg with
          | false =>
            have := hov1 (by simpa using hpp)
            rw [hfa] at this
            exact format_finite_ne_inf false mag this
          | true =>
            have := hov2 (by simpa using hpp)
            rw [hfa] at this
            exact format_finite_ne_neg_inf true mag this
        · rw [hfa]
          exact format_amount_fix neg mag hov

/-- C9 witness: the amended idempotence at the spec's own example
`"12.50"`. -/
theorem C9_witness :
    format_amount (Cell.txt "12.50") ≠ "nan" ∧
      format_amount (Cell.txt (format_amount (Cell.txt "12.50"))) =
        format_amount (Cell.txt "12.50") :=
  ⟨by decide, C9_idem (Cell.txt "12.50") (by decide) (by decide) (by decide)⟩

/-- C10: a strictly negative raw amount above `-0.005` formats to
`"-0.00"`, and the classifier then reads `"-0.00"` as a negative zero,
which is not strictly negative, and answers `"INV"`. -/
theorem C10_tiny_negative (c : Cell) {mag : ℚ}
    (hp : pyFloatOfChars (cleanAmountChars (pyStr c).toList) =
      some (PyFloat.finite true mag))
    (h0 : 0 < mag) (hsmall : mag < 1 / 200) :
    format_amount c = "-0.00" ∧
      determine_transaction_type (format_amount c) = "INV" := by
  have hb : ¬(cleanAmountChars (pyStr c).toList = [] ∨
      pyLowerChars (cleanAmountChars (pyStr c).toList) = "nan".toList) := by
    rintro (hb | hb)
    · rw [hb, parse_nil] at hp
      exact absurd hp (by simp)
    · rw [parse_of_lower_nan hb] at hp
      exact absurd hp (by simp)
  have hfa : format_amount c = formatDot2 (PyFloat.finite true mag) := by
    simp only [format_amount]
    rw [if_neg hb, hp]
  have hround : roundHalfEven (100 * mag) = 0 :=
    roundHalfEven_eq_zero (by linarith) (by linarith)
  have hfmt : formatDot2 (PyFloat.finite true mag) = "-0.00" := by
    simp only [formatDot2, formatDot2Chars]
    rw [hround]
    rfl
  rw [hfa, hfmt]
  exact ⟨rfl, rfl⟩

/-- C10 witness: the concrete cell `"-0.001"` from the claim. -/
theorem C10_witness :
    pyFloatOfChars (cleanAmountChars (pyStr (Cell.txt "-0.001")).toList) =
        some (PyFloat.finite true (1 / 1000)) ∧
      format_amount (Cell.txt "-0.001") = "-0.00" ∧
      determine_transaction_type (format_amount (Cell.txt "-0.001")) = "INV" := by
  have hp0 : pyFloatOfChars (cleanAmountChars (pyStr (Cell.txt "-0.001")).toList) =
      some (PyFloat.finite true (1 / 1000)) := by decide
  exact ⟨hp0, C10_tiny_negative (Cell.txt "-0.001") hp0 (by norm_num) (by norm_num)⟩

/-! ### Column resolution -/

theorem keyLookup_update (k : ColKey) (cm : ColumnMap) (col : String) :
    keyLookup (updateColumnMap cm col) k =
      (if normalizeHeader col = keyAlias k then some col else keyLookup cm k) := by
  cases k <;> simp only [updateColumnMap, keyLookup, keyAlias] <;> split_ifs <;> simp_all

/-- The header-scan fold binds each key to the last matching header, or
keeps the initial binding when no header matches. -/
theorem resolve_foldl (k : ColKey) (hs : List String) : ∀ cm : ColumnMap,
    keyLookup (hs.foldl updateColumnMap cm) k =
      (match (hs.filter (fun h => normalizeHeader h == keyAlias k)).getLast? with
       | some h => some h
       | none => keyLookup cm k) := by
  induction hs with
  | nil => intro cm; simp
  | cons h t ih =>
    intro cm
    rw [List.foldl_cons, ih (updateColumnMap cm h), keyLookup_update]
    by_cases hm : normalizeHeader h = keyAlias k
    · have hpb : (normalizeHeader h == keyAlias k) = true := by simp [hm]
      cases hfl : t.filter (fun x => normalizeHeader x == keyAlias k) with
      | nil => simp [List.filter_cons, hpb, hfl, hm]
      | cons y ys =>
        simp only [List.filter_cons, hpb, hfl, if_true, List.getLast?_cons_cons]
        cases hgl : (y :: ys).getLast? with
        | none => simp at hgl
        | some z => simp [hgl]
    · have hpb : (normalizeHeader h == keyAlias k) = false := by simp [hm]
      simp [List.filter_cons, hpb, hm]

/-- C3 counterexample: with the duplicate headers `"Customer"` and
`" CUSTOMER "` (both normalizing to the alias `customer`), the resolver
binds the customer key to the second header — the later duplicate
overwrites the first assignment, refuting first-match-wins. -/
theorem C3_counterexample :
    (resolveColumns
      ["Customer", " CUSTOMER ", "Order Nbr.", "Reference Nbr.", "Date", "Amount"]).customer =
        some " CUSTOMER " ∧
      (resolveColumns
        ["Customer", " CUSTOMER ", "Order Nbr.", "Reference Nbr.", "Date", "Amount"]).customer ≠
          some "Customer" ∧
      normalizeHeader "Customer" = "customer" ∧
      normalizeHeader " CUSTOMER " = "customer" := by
  refine ⟨by decide, by decide, by decide, by decide⟩

/-- C3 (amended): for every header sequence, the resolver binds each
semantic key to the LAST header (in left-to-right scan order) whose
normalized form equals the key's alias — each later duplicate overwrites
the earlier assignment. -/
theorem C3_last_match_wins (k : ColKey) (hs : List String) :
    keyLookup (resolveColumns hs) k =
      (hs.filter (fun h => normalizeHeader h == keyAlias k)).getLast? := by
  unfold resolveColumns
  rw [resolve_foldl k hs {}]
  cases (hs.filter (fun h => normalizeHeader h == keyAlias k)).getLast? with
  | none => cases k <;> rfl
  | some z => rfl

theorem mem_missingCols (cm : ColumnMap) (k : ColKey) :
    keyName k ∈ missingCols cm ↔ keyLookup cm k = none := by
  unfold missingCols
  constructor
  · intro hm
    obtain ⟨k2, hk2, he⟩ := List.mem_map.mp hm
    have hkk : k2 = k := by
      cases k <;> cases k2 <;> first | rfl | (exact absurd he (by decide))
    subst hkk
    have := List.of_mem_filter hk2
    simpa using this
  · intro hn
    refine List.mem_map.mpr ⟨k, List.mem_filter.mpr ⟨?_, ?_⟩, rfl⟩
    · cases k <;> decide
    · simp [hn]

/-- C4: whenever the table is nonempty and at least one semantic key is
unresolved, the pipeline returns the `MissingColumns` error carrying the
list of every unresolved key (membership is exactly unresolvedness), and
no output table is produced. -/
theorem C4_missing_columns (fallback : Cell → Option DateParts) (t : RawTable)
    (hrows : t.rows ≠ [])
    (hmiss : missingCols (resolveColumns t.headers) ≠ []) :
    process_file fallback t =
      Except.error (ProcessError.missingColumns (missingCols (resolveColumns t.headers))) ∧
      (∀ k : ColKey, keyLookup (resolveColumns t.headers) k = none ↔
        keyName k ∈ missingCols (resolveColumns t.headers)) := by
  constructor
  · unfold process_file
    rw [if_neg (by simpa using hrows), if_neg (by simpa using hmiss)]
  · intro k
    exact (mem_missingCols (resolveColumns t.headers) k).symm

/-- Concrete table for the C4 witness: the `Date` and `Amount` headers are
absent. -/
def tMissing : RawTable :=
  RawTable.mk ["Customer", "Order Nbr.", "Reference Nbr."]
    [[Cell.txt "a", Cell.txt "1", Cell.txt "r"]]

/-- C4 witness: with `Date` and `Amount` absent the pipeline reports both
keys, in dictionary order, and halts. -/
theorem C4_witness :
    tMissing.rows ≠ [] ∧
      missingCols (resolveColumns tMissing.headers) = ["date", "amount"] ∧
      process_file (fun _ => none) tMissing =
        Except.error (ProcessError.missingColumns
          (missingCols (resolveColumns tMissing.headers))) :=
  ⟨by decide, by decide,
    (C4_missing_columns (fun _ => none) tMissing (by decide) (by decide)).1⟩

/-- C6: the synthesized Document Number is exactly
`"O_" ++ order_text ++ "_" ++ reference_text`, a missing source cell
contributes the empty string (never the literal `nan`), the result is
never empty, and it is `"O__"` when both contributions are empty. -/
theorem C6_document_number (o r : Cell) :
    create_document_number o r = "O_" ++ cellFieldText o ++ "_" ++ cellFieldText r ∧
      (o = Cell.na → cellFieldText o = "") ∧
      (r = Cell.na → cellFieldText r = "") ∧
      create_document_number o r ≠ "" ∧
      (cellFieldText o = "" → cellFieldText r = "" →
        create_document_number o r = "O__") := by
  refine ⟨rfl, fun h => by rw [h]; rfl, fun h => by rw [h]; rfl, ?_, ?_⟩
  · intro h
    have hd := congrArg String.data h
    simp only [create_document_number, String.data_append] at hd
    simp at hd
  · intro ho hr
    simp only [create_document_number, ho, hr]
    rfl

/-- C6 witness: both source cells missing yields `"O__"`. -/
theorem C6_witness : create_document_number Cell.na Cell.na = "O__" :=
  (C6_document_number Cell.na Cell.na).2.2.2.2 rfl rfl

/-! ### The assembled pipeline -/

instance {e a : Type} [DecidableEq e] [DecidableEq a] : DecidableEq (Except e a) := fun x y =>
  match x, y with
  | Except.ok v, Except.ok w =>
    if h : v = w then isTrue (congrArg Except.ok h)
    else isFalse (fun hh => h (Except.ok.inj hh))
  | Except.error v, Except.error w =>
    if h : v = w then isTrue (congrArg Except.error h)
    else isFalse (fun hh => h (Except.error.inj hh))
  | Except.ok _, Except.error _ => isFalse (fun hh => Except.noConfusion hh)
  | Except.error _, Except.ok _ => isFalse (fun hh => Except.noConfusion hh)

/-- The per-row processing with the resolved header names of a table. -/
def resolvedRow (fallback : Cell → Option DateParts) (t : RawTable) (row : List Cell) :
    ProcessedRow :=
  processRow fallback t.headers ((resolveColumns t.headers).customer.getD "")
    ((resolveColumns t.headers).order_number.getD "")
    ((resolveColumns t.headers).reference.getD "")
    ((resolveColumns t.headers).date.getD "")
    ((resolveColumns t.headers).amount.getD "") row

/-- Characterization of a successful pipeline run: the fixed column order
over the kept rows, projected in final order. -/
theorem process_file_ok (fallback : Cell → Option DateParts) (t : RawTable)
    (hrows : ¬ t.rows.isEmpty = true)
    (hmiss : (missingCols (resolveColumns t.headers)).isEmpty = true) :
    process_file fallback t = Except.ok
      { columns := finalColumnOrder,
        rows := ((t.rows.map (resolvedRow fallback t)).filter rowKeep).map finalCells } := by
  unfold process_file
  rw [if_neg hrows, if_pos hmiss]
  rw [Except.ok.injEq]
  show selectColumns finalColumnOrder
      { columns := assignmentOrder,
        rows := ((t.rows.map (resolvedRow fallback t)).filter rowKeep).map assignedCells } = _
  simp only [selectColumns, OutputTable.mk.injEq]
  constructor
  · rfl
  · rw [List.map_map]
    rfl

/-- C8: every successful run yields exactly the five fixed output columns
in the fixed order Debtor Reference, Transaction Type, Document Number,
Document Date, Document Balance. -/
theorem C8_columns (fallback : Cell → Option DateParts) (t : RawTable) (out : OutputTable)
    (h : process_file fallback t = Except.ok out) :
    out.columns = ["Debtor Reference", "Transaction Type", "Document Number",
      "Document Date", "Document Balance"] := by
  by_cases h1 : t.rows.isEmpty
  · unfold process_file at h
    rw [if_pos h1] at h
    cases h
  · by_cases h2 : (missingCols (resolveColumns t.headers)).isEmpty
    · rw [process_file_ok fallback t h1 h2, Except.ok.injEq] at h
      rw [← h]
      rfl
    · unfold process_file at h
      rw [if_neg h1, if_neg h2] at h
      cases h

/-- C7: in every successful run, each output row comes from a processed
row that passed the filter — its Debtor Reference is present and nonempty
after trimming and its Document Number is nonempty after trimming (so a
row with a blank Customer cell is dropped) — and the surviving rows form a
sublist of the processed input rows, preserving relative order. -/
theorem C7_row_filter (fallback : Cell → Option DateParts) (t : RawTable) (out : OutputTable)
    (h : process_file fallback t = Except.ok out) :
    (∀ row ∈ out.rows, ∃ r : ProcessedRow, row = finalCells r ∧
        pyNotna r.debtor = true ∧ trimChars (pyStr r.debtor).toList ≠ [] ∧
        trimChars r.documentNumber.toList ≠ []) ∧
      out.rows.Sublist ((t.rows.map (resolvedRow fallback t)).map finalCells) := by
  by_cases h1 : t.rows.isEmpty
  · unfold process_file at h
    rw [if_pos h1] at h
    cases h
  by_cases h2 : (missingCols (resolveColumns t.headers)).isEmpty
  case neg =>
    unfold process_file at h
    rw [if_neg h1, if_neg h2] at h
    cases h
  rw [process_file_ok fallback t h1 h2, Except.ok.injEq] at h
  subst h
  constructor
  · intro row hrow
    obtain ⟨r, hr, hrow2⟩ := List.mem_map.mp hrow
    have hkeep : rowKeep r = true := List.of_mem_filter hr
    simp only [rowKeep, Bool.and_eq_true, Bool.not_eq_true', beq_eq_false_iff_ne] at hkeep
    exact ⟨r, hrow2.symm, hkeep.1.1.1, hkeep.1.1.2, hkeep.2⟩
  · exact List.Sublist.map finalCells (List.filter_sublist (t.rows.map (resolvedRow fallback t)))

/-- Input table for the C7 and C8 witnesses: a blank-customer row
followed by the valid row of Scenario A. -/
def tScenario : RawTable :=
  RawTable.mk ["Customer", "Order Nbr.", "Reference Nbr.", "Date", "Amount"]
    [[Cell.txt "", Cell.txt "1", Cell.txt "R2", Cell.txt "x", Cell.txt "-50"],
     [Cell.txt "Acme", Cell.txt "100", Cell.txt "R1", Cell.txt "01/02/2023",
      Cell.txt "$1,200.50"]]

/-- Output of the pipeline on `tScenario`. -/
def outScenario : OutputTable :=
  OutputTable.mk
    ["Debtor Reference", "Transaction Type", "Document Number", "Document Date",
     "Document Balance"]
    [[Cell.txt "Acme", Cell.txt "INV", Cell.txt "O_100_R1", Cell.txt "01/02/2023",
      Cell.txt "1200.50"]]

/-- C8 witness: the concrete run keeps exactly the five fixed columns. -/
theorem C8_witness :
    process_file (fun _ => none) tScenario = Except.ok outScenario ∧
      outScenario.columns = ["Debtor Reference", "Transaction Type", "Document Number",
        "Document Date", "Document Balance"] :=
  ⟨by decide, C8_columns (fun _ => none) tScenario outScenario (by decide)⟩

/-- C7 witness: on the concrete run the blank-customer row is dropped and
the surviving row keeps its place among the processed rows. -/
theorem C7_witness :
    ([[Cell.txt "Acme", Cell.txt "INV", Cell.txt "O_100_R1", Cell.txt "01/02/2023",
        Cell.txt "1200.50"]] : List (List Cell)).Sublist
      [[Cell.txt "", Cell.txt "CRD", Cell.txt "O_1_R2", Cell.txt "x", Cell.txt "-50.00"],
       [Cell.txt "Acme", Cell.txt "INV", Cell.txt "O_100_R1", Cell.txt "01/02/2023",
        Cell.txt "1200.50"]] :=
  (C7_row_filter (fun _ => none) tScenario outScenario (by decide)).2

/-! ### The date normalizer -/

theorem tryFormats_some_of_split {s : String} {pre post : List String} {f : String}
    {p : DateParts} (hpre : ∀ g ∈ pre, strptime g s = none)
    (hf : strptime f s = some p) :
    tryFormats (pre ++ f :: post) s = some p := by
  induction pre with
  | nil =>
    simp only [List.nil_append, tryFormats, hf]
  | cons g gs ih =>
    have hg : strptime g s = none := hpre g (List.mem_cons_self g gs)
    rw [List.cons_append]
    simp only [tryFormats, hg]
    exact ih (fun x hx => hpre x (List.mem_cons_of_mem g hx))

theorem tryFormats_none_of_all {fs : List String} {s : String}
    (h : ∀ f ∈ fs, strptime f s = none) : tryFormats fs s = none := by
  induction fs with
  | nil => rfl
  | cons f fs ih =>
    have hf : strptime f s = none := h f (List.mem_cons_self f fs)
    simp only [tryFormats, hf]
    exact ih (fun x hx => h x (List.mem_cons_of_mem f hx))

/-- C5: empty or missing date cells give the empty string; otherwise the
nine explicit formats are tried in their exact order and the first success
is rendered as zero-padded DD/MM/YYYY; when none matches, the
day-first general parser is consulted, its success rendered the same way;
when it too fails, the literal cell text is returned — the row is never
failed. -/
theorem C5_format_date (fallback : Cell → Option DateParts) (c : Cell) :
    ((pyNotna c = false ∨ trimChars (pyStr c).toList = []) → format_date fallback c = "") ∧
      (pyNotna c = true → trimChars (pyStr c).toList ≠ [] →
        ((∀ pre f post p, dateFormats = pre ++ f :: post →
            (∀ g ∈ pre, strptime g (pyStr c) = none) → strptime f (pyStr c) = some p →
            format_date fallback c = renderDMY p) ∧
          ((∀ f ∈ dateFormats, strptime f (pyStr c) = none) →
            (∀ p, fallback c = some p → format_date fallback c = renderDMY p) ∧
              (fallback c = none → format_date fallback c = pyStr c)))) := by
  constructor
  · intro h
    unfold format_date
    rw [if_pos h]
  · intro hna hne
    have hcond : ¬(pyNotna c = false ∨ trimChars (pyStr c).toList = []) := by
      rintro (h | h)
      · rw [hna] at h
        cases h
      · exact hne h
    constructor
    · intro pre f post p hsplit hpre hf
      unfold format_date
      rw [if_neg hcond, hsplit, tryFormats_some_of_split hpre hf]
    · intro hall
      have hnone : tryFormats dateFormats (pyStr c) = none := tryFormats_none_of_all hall
      constructor
      · intro p hfb
        unfold format_date
        rw [if_neg hcond, hnone, hfb]
      · intro hfb
        unfold format_date
        rw [if_neg hcond, hnone, hfb]

/-- C5 witness: `"2023-01-15"` fails the first format, matches the second
(`%Y-%m-%d`), and renders as `15/01/2023`. -/
theorem C5_witness :
    format_date (fun _ => none) (Cell.txt "2023-01-15") = "15/01/2023" := by
  have h := ((C5_format_date (fun _ => none) (Cell.txt "2023-01-15")).2 (by decide)
    (by decide)).1 ["%d/%m/%Y"] "%Y-%m-%d"
    ["%d-%m-%Y", "%m/%d/%Y", "%Y/%m/%d", "%d-%b-%Y", "%d %b %Y", "%Y-%m-%d %H:%M:%S",
     "%d/%m/%Y %H:%M:%S"]
    (DateParts.mk 2023 1 15 0 0 0) (by decide) (by decide) (by decide)
  rw [h]
  rfl

end A2Z
